import Mathlib

/-!
Verification of the viewproxy fragment-composition reverse proxy.

This file shallowly embeds the core data model and algorithms of the
repository — the stitching algorithm (`stitch` in fragment.go), the
fragment definition tree and route flattening/validation
(pkg/fragment/definition.go and the tree-based Route), the requestable
URL construction (`Definition.Requestable` / `buildURL`), and the
concurrent multiplexer (`Request.Do` / `fetchUrl` in pkg/multiplexer) —
and proves or refutes the specified properties about them.

Strings that the Go code manipulates as `[]byte` are embedded as
`List Char` (the repository only ever handles ASCII marker/URL bytes, so
byte-level and rune-level processing agree on every input considered
here); Go `map` values are embedded as association lists with
last-write-wins lookup, and Go's concurrency is embedded by making the
completion order of the concurrent fetches and the outcome of the
`select` race explicit parameters.
-/

/-- Decidable equality for `Except` values (used to evaluate fallible
operations at concrete inputs). -/
instance {ε α : Type} [DecidableEq ε] [DecidableEq α] : DecidableEq (Except ε α) := fun x y =>
  match x, y with
  | .ok a, .ok b =>
    if h : a = b then isTrue (by rw [h]) else isFalse (fun hh => by cases hh; exact h rfl)
  | .error a, .error b =>
    if h : a = b then isTrue (by rw [h]) else isFalse (fun hh => by cases hh; exact h rfl)
  | .ok _, .error _ => isFalse (fun hh => by cases hh)
  | .error _, .ok _ => isFalse (fun hh => by cases hh)

/-! ## Byte-sequence utilities (Go `bytes` package semantics) -/

/-- Index of the leftmost occurrence of `pat` in `s`, as in Go
`bytes.Index` (an empty pattern matches at index 0). -/
def bytesIndex (pat : List Char) : List Char → Option Nat
  | [] => if pat.isPrefixOf ([] : List Char) then some 0 else none
  | c :: t => if pat.isPrefixOf (c :: t) then some 0 else (bytesIndex pat t).map (· + 1)

/-- Go `bytes.Replace(s, pat, rep, 1)`: replace the first occurrence of
`pat` in `s` by `rep`; if `pat` does not occur, return `s` unchanged. -/
def bytesReplaceOne (s pat rep : List Char) : List Char :=
  match bytesIndex pat s with
  | none => s
  | some i => s.take i ++ rep ++ s.drop (i + pat.length)

/-! ## Stitch structures and the stitching algorithm (fragment.go and
the stitch-structure builder) -/

mutual
/-- The `stitchStructure` type: a tree-path key, the replacement id used
as the marker name in the parent body, and the dependent structures. -/
inductive StitchStructure : Type where
  | mk (key : String) (replacementID : String) (deps : StitchList)
  deriving DecidableEq
/-- A list of child stitch structures (`dependentStructures`). -/
inductive StitchList : Type where
  | nil
  | cons (s : StitchStructure) (rest : StitchList)
  deriving DecidableEq
end

def StitchStructure.key : StitchStructure → String
  | .mk k _ _ => k

def StitchStructure.rid : StitchStructure → String
  | .mk _ r _ => r

def StitchStructure.deps : StitchStructure → StitchList
  | .mk _ _ d => d

def StitchList.toList : StitchList → List StitchStructure
  | .nil => []
  | .cons s rest => s :: rest.toList

/-- The literal replacement marker the code searches for:
`fmt.Sprintf("<viewproxy-fragment id=\"%s\"/>", replacementKey)`
(fragment.go line 218 — note the self-closing form). -/
def directive (k : String) : List Char :=
  ("<viewproxy-fragment id=\"" ++ k ++ "\"/>").data

mutual
/-- The `stitch` function of fragment.go: recursively stitch every
dependent structure (children before parent), then substitute each
child's stitched bytes for the first occurrence of its marker in this
node's own result body.  The Go code collects the children into the
`childContent` map and iterates it in (nondeterministic) map order; here
the substitutions are applied in the order of `deps`, and order
(in)dependence is analysed separately. -/
def stitch (st : StitchStructure) (results : String → List Char) : List Char :=
  match st with
  | .mk key _ deps =>
    let cc := childContents deps results
    let self := results key
    if cc.isEmpty then self
    else cc.foldl (fun acc kc => bytesReplaceOne acc (directive kc.1) kc.2) self

/-- The collected `childContent` entries: one `(replacementID, stitched
bytes)` pair per dependent structure. -/
def childContents (deps : StitchList) (results : String → List Char) :
    List (String × List Char) :=
  match deps with
  | .nil => []
  | .cons s rest => (s.rid, stitch s results) :: childContents rest results
end

/-! ## Go string primitives

The repository uses `strings.Split`, `strings.HasPrefix`,
`strings.TrimPrefix` and `strings.Join`.  They are embedded at the
character-list level (the strings involved are ASCII, where Go's
byte-level behaviour and character-level behaviour agree). -/

/-- Go `strings.Split(s, sep)` for a single-character separator. -/
def splitChar (sep : Char) : List Char → List (List Char)
  | [] => [[]]
  | c :: t =>
    match splitChar sep t with
    | [] => [[c]]
    | h :: rest => if c = sep then [] :: h :: rest else (c :: h) :: rest

/-- Go `strings.Split(s, "/")`, producing strings. -/
def goSplitSlash (s : String) : List String :=
  (splitChar '/' s.data).map (fun cs => String.mk cs)

/-- Go `strings.HasPrefix`. -/
def goHasColon (s : String) : Bool :=
  [':'].isPrefixOf s.data

/-- Go `strings.TrimPrefix(s, "/")`: remove one leading slash when
present. -/
def goTrimSlash (s : String) : String :=
  match s.data with
  | '/' :: t => String.mk t
  | _ => s

/-- Go `strings.Join(parts, "/")`, as characters. -/
def joinParts : List String → List Char
  | [] => []
  | [p] => p.data
  | p :: rest => p.data ++ '/' :: joinParts rest

/-! ## Fragment definition tree (pkg/fragment/definition.go) -/

mutual
/-- `fragment.Definition`: a path template, the `IgnoreValidation`
escape hatch set by `WithoutValidation()`, and the named children map
(`children map[string]*Definition`, embedded as an association list; the
Go map has unique keys). Metadata is opaque to every verified property
and is omitted. -/
inductive Definition : Type where
  | mk (path : String) (ignoreValidation : Bool) (children : Children)
  deriving DecidableEq
/-- The `children` mapping from slot name to child definition. -/
inductive Children : Type where
  | nil
  | cons (name : String) (child : Definition) (rest : Children)
  deriving DecidableEq
end

def Definition.path : Definition → String
  | .mk p _ _ => p

def Definition.ignoreValidation : Definition → Bool
  | .mk _ ig _ => ig

def Definition.children : Definition → Children
  | .mk _ _ cs => cs

/-- `Define` splits `strings.TrimPrefix(path, "/")` on `/` into
`routeParts`; this is that derived field. -/
def Definition.routeParts (d : Definition) : List String :=
  goSplitSlash (goTrimSlash d.path)

/-- The `dynamicParts` derived field: every route part starting with
`:`. -/
def Definition.dynamicParts (d : Definition) : List String :=
  d.routeParts.filter (fun part => goHasColon part)

/-! ## Tree flattening and the memoized route ordering (route.go of the
tree-based model: `fragmentMapping`, `memoizeFragments`) -/

mutual
/-- `fragmentMapping`: the map from tree-path key to definition, with
the root under `"root"` and each child under `parentKey ++ "." ++ name`.
The Go code inserts into a `map[string]*Definition` while walking the
children; the embedding records the insertion sequence (the derived
key-set and lookup functions below recover the Go map semantics). -/
def fragmentMapping (f : Definition) : List (String × Definition) :=
  match f with
  | .mk p ig cs => (("root" : String), Definition.mk p ig cs) :: mapChildren ("root") cs

def mapChildren (pre : String) (cs : Children) : List (String × Definition) :=
  match cs with
  | .nil => []
  | .cons nm c rest => mapChildFragment pre nm c ++ mapChildren pre rest

/-- `mapChildFragment`: insert this child under `pre ++ "." ++ nm` and
recurse into its children. -/
def mapChildFragment (pre nm : String) (f : Definition) : List (String × Definition) :=
  match f with
  | .mk p ig cs =>
    (pre ++ "." ++ nm, Definition.mk p ig cs) :: mapChildren (pre ++ "." ++ nm) cs
end

/-- Go map lookup over an insertion sequence: the last write wins. -/
def goMapGet (m : List (String × Definition)) (k : String) : Option Definition :=
  (m.reverse.find? (fun kv => kv.1 = k)).map (fun kv => kv.2)

/-- The key set of a Go map built from an insertion sequence (each key
once, as `range` over a map yields it). -/
def goMapKeys (m : List (String × Definition)) : List String :=
  (m.map (fun kv => kv.1)).dedup

/-- Lexicographic comparison of character sequences by codepoint (for
valid UTF-8, bytewise comparison — what Go `sort.Strings` uses — orders
strings identically to codepoint-lexicographic comparison). -/
def lexLe : List Char → List Char → Bool
  | [], _ => true
  | _ :: _, [] => false
  | a :: as, b :: bs =>
    if a.toNat < b.toNat then true
    else if a.toNat = b.toNat then lexLe as bs
    else false

/-- Lexicographic string comparison. -/
def strLe (a b : String) : Bool :=
  lexLe a.data b.data

/-- `sort.Strings`: sort a string slice in increasing lexicographic
order. -/
def sortStrings (l : List String) : List String :=
  List.insertionSort (fun a b => strLe a b = true) l

/-- The tree-model `Route`: a path pattern bound to a root fragment
definition.  `Parts`, `dynamicParts`, `structure`, `fragmentOrder` and
`fragmentsToRequest` are all derived (memoized in Go) and are embedded
as functions below. -/
structure Route : Type where
  path : String
  rootFragment : Definition
  deriving DecidableEq

def Route.parts (r : Route) : List String :=
  goSplitSlash r.path

def Route.dynamicParts (r : Route) : List String :=
  r.parts.filter (fun part => goHasColon part)

/-- `memoizeFragments`: `fragmentOrder` is the sorted list of the
fragment-mapping's keys. -/
def Route.fragmentOrder (r : Route) : List String :=
  sortStrings (goMapKeys (fragmentMapping r.rootFragment))

/-- `memoizeFragments`: `fragmentsToRequest` holds `mapping[key]` for
each key of `fragmentOrder`, in the same order.  (Every key of
`fragmentOrder` is present in the mapping; the `.getD` default is
unreachable.) -/
def Route.fragmentsToRequest (r : Route) : List Definition :=
  r.fragmentOrder.map
    (fun k => (goMapGet (fragmentMapping r.rootFragment) k).getD (Definition.mk ("") false .nil))

/-- `mapResultsToFragmentKey`: `for i, key := range route.FragmentOrder()
{ resultMap[key] = results[i] }` — build the per-key result map by
zipping the fragment order with the result list positionally.  `α`
stands for the `*multiplexer.Result` pointer type. -/
def mapResultsToFragmentKey {α : Type} (r : Route) (results : List α) : String → Option α :=
  (r.fragmentOrder.zip results).foldl
    (fun m kv => fun q => if q = kv.1 then some kv.2 else m q) (fun _ => none)

/-! ## Route validation (route.go of the tree-based model) -/

/-- `compareStringSlice` sorts both slices and compares them with
`reflect.DeepEqual`: equality as multisets. -/
def compareStringSlice (a b : List String) : Bool :=
  decide (sortStrings a = sortStrings b)

/-- `RouteValidationError` names the offending route path and fragment
path. -/
structure RouteValidationError : Type where
  routePath : String
  fragmentPath : String
  deriving DecidableEq

/-- `Route.Validate`: return a `RouteValidationError` for the first
flattened fragment that is not `IgnoreValidation` and whose dynamic
parts are not `compareStringSlice`-equal to the route's; `none` when
every fragment passes. -/
def Route.Validate (r : Route) : Option RouteValidationError :=
  (r.fragmentsToRequest.find?
      (fun f => !f.ignoreValidation && !compareStringSlice r.dynamicParts f.dynamicParts)).map
    (fun f => RouteValidationError.mk r.path f.path)

/-- Unordered-set equality of string slices (the comparison the spec
describes for validation); used to compare the specified behaviour with
the implemented `compareStringSlice`. -/
def stringSetEq (a b : List String) : Bool :=
  a.all (fun x => b.contains x) && b.all (fun x => a.contains x)

/-! ## URL path escaping (Go net/url semantics, used by
`Definition.Requestable` / `buildURL`) -/

/-- Hex-digit test (Go `ishex`). -/
def isHexDigit (c : Char) : Bool :=
  (decide (Char.ofNat 48 ≤ c) && decide (c ≤ Char.ofNat 57)) ||
  (decide (Char.ofNat 97 ≤ c) && decide (c ≤ Char.ofNat 102)) ||
  (decide (Char.ofNat 65 ≤ c) && decide (c ≤ Char.ofNat 70))

/-- Hex-digit value (Go `unhex`); 0 on a non-hex digit (unreachable
behind `isHexDigit`). -/
def unhexDigit (c : Char) : Nat :=
  if decide (Char.ofNat 48 ≤ c) && decide (c ≤ Char.ofNat 57) then c.toNat - 48
  else if decide (Char.ofNat 97 ≤ c) && decide (c ≤ Char.ofNat 102) then c.toNat - 97 + 10
  else if decide (Char.ofNat 65 ≤ c) && decide (c ≤ Char.ofNat 70) then c.toNat - 65 + 10
  else 0

/-- Go `url.PathUnescape`: decode every `%XX` escape; `none` (an
`EscapeError`) when a `%` is not followed by two hex digits. -/
def pathUnescape : List Char → Option (List Char)
  | [] => some []
  | '%' :: a :: b :: t =>
    if isHexDigit a && isHexDigit b then
      (pathUnescape t).map (fun r => Char.ofNat (16 * unhexDigit a + unhexDigit b) :: r)
    else none
  | '%' :: _ => none
  | c :: t => (pathUnescape t).map (fun r => c :: r)

/-- Go `shouldEscape(c, encodePath)`: which bytes the path encoder
escapes — alphanumerics, the unreserved marks and (for the path mode)
all reserved characters except `?` pass through. -/
def shouldEscapePath (c : Char) : Bool :=
  if (decide (Char.ofNat 97 ≤ c) && decide (c ≤ Char.ofNat 122)) ||
     (decide (Char.ofNat 65 ≤ c) && decide (c ≤ Char.ofNat 90)) ||
     (decide (Char.ofNat 48 ≤ c) && decide (c ≤ Char.ofNat 57)) then false
  else if c = '-' || c = '_' || c = '.' || c = '~' then false
  else if c = '$' || c = '&' || c = '+' || c = ',' || c = '/' || c = ':' ||
          c = ';' || c = '=' || c = '?' || c = '@' then c = '?'
  else true

/-- Go `validEncoded(s, encodePath)`: a raw path is acceptable when
every byte is a kept sub-delimiter, a bracket, a `%`, or a byte the
path encoder would not escape. -/
def validEncodedPath (s : List Char) : Bool :=
  s.all (fun c =>
    if c = '!' || c = '$' || c = '&' || c = Char.ofNat 39 || c = '(' || c = ')' ||
       c = '*' || c = '+' || c = ',' || c = ';' || c = '=' || c = ':' || c = '@' then true
    else if c = '[' || c = ']' then true
    else if c = '%' then true
    else !shouldEscapePath c)

/-- Upper-case hex digit of a value below 16 (Go `upperhex`). -/
def upperHexDigit (n : Nat) : Char :=
  ("0123456789ABCDEF").data.getD n '0'

/-- Go `escape(s, encodePath)`: percent-encode every byte that
`shouldEscape` marks. -/
def escapePathChars (s : List Char) : List Char :=
  s.flatMap (fun c =>
    if shouldEscapePath c then ['%', upperHexDigit (c.toNat / 16), upperHexDigit (c.toNat % 16)]
    else [c])

/-- The dual-representation URL of Go `net/url`: the decoded `Path` and
the raw wire `RawPath`, plus the pieces `buildURL` copies or sets.
Scheme and host are opaque to every verified property. -/
structure GoURL : Type where
  scheme : String
  host : String
  path : List Char
  rawPath : List Char
  rawQuery : String
  deriving DecidableEq

/-- Go `URL.EscapedPath`: return `RawPath` when it is a valid encoding
of `Path`, otherwise re-escape `Path`.  This is the path that appears on
the wire in `URL.String()`. -/
def escapedPath (u : GoURL) : List Char :=
  if !u.rawPath.isEmpty && validEncodedPath u.rawPath &&
      decide (pathUnescape u.rawPath = some u.path) then u.rawPath
  else if u.path = ['*'] then ['*']
  else escapePathChars u.path

/-! ## Requestable construction (pkg/fragment/definition.go:
`Definition.Requestable` and `buildURL`) -/

/-- The error cases of `Definition.Requestable`:
`fmt.Errorf("no parameter was provided for %s in route %s", part, d.Path)`
(the missing-parameter error of the spec's taxonomy) and
`fmt.Errorf("could not encode url: %w", err)` from `buildURL`. -/
inductive ReqErr : Type where
  | missingParameter (part : String) (routePath : String)
  | encodeError
  deriving DecidableEq

/-- Lookup in the `pathParams` map (a Go map with unique keys, embedded
as an association list). -/
def lookupParam (ps : List (String × String)) (k : String) : Option String :=
  (ps.find? (fun p => p.1 = k)).map (fun p => p.2)

/-- The path-building loop of `Definition.Requestable`: for every route
part write `/` and then either the literal part or, for a `:`-prefixed
part, `pathParams[part]` — failing with the part's name when no value
was provided. -/
def substPath (parts : List String) (ps : List (String × String)) : Except String (List Char) :=
  match parts with
  | [] => .ok []
  | part :: rest =>
    if goHasColon part then
      match lookupParam ps part with
      | some v => (substPath rest ps).map (fun r => '/' :: (v.data ++ r))
      | none => .error part
    else (substPath rest ps).map (fun r => '/' :: (part.data ++ r))

/-- `buildURL(base, path, query)`: clone the base URL, set `RawQuery`,
set the decoded `Path` to `url.PathUnescape(path)` (treating `%2f` as a
`/`) and keep the escaped input as `RawPath`; `none` is the
`could not encode url` error. -/
def buildURL (base : GoURL) (path : List Char) (query : String) : Option GoURL :=
  match pathUnescape path with
  | none => none
  | some unescaped =>
    some { base with rawQuery := query, path := unescaped, rawPath := path }

/-- A `fragment.Request` (the `Requestable` implementation): the
resolved request URL and the unsubstituted template URL kept for
redacted error messages. -/
structure FragmentRequest : Type where
  requestURL : GoURL
  templateURL : GoURL
  deriving DecidableEq

/-- `Definition.Requestable(target, pathParams, query)`: build the
substituted path, then the request URL and the template URL via
`buildURL`. -/
def Definition.Requestable (d : Definition) (base : GoURL)
    (pathParams : List (String × String)) (query : String) :
    Except ReqErr FragmentRequest :=
  match substPath d.routeParts pathParams with
  | .error part => .error (.missingParameter part d.path)
  | .ok pathChars =>
    match buildURL base pathChars query with
    | none => .error .encodeError
    | some requestURL =>
      match buildURL base (joinParts d.routeParts) ("") with
      | none => .error .encodeError
      | some templateURL => .ok (FragmentRequest.mk requestURL templateURL)

/-! ## Concurrent multiplexer (pkg/multiplexer: `Request.Do`,
`fetchUrl`, `TimeoutError`, `ErrRequestCanceled`, `filterError`) -/

/-- The `multiplexer.Requestable` interface surface the multiplexer
consumes: the resolved URL and the redaction template URL. -/
structure GoRequestable : Type where
  url : String
  templateURL : String
  deriving DecidableEq

/-- The observable behaviour of one upstream fetch through the
`Tripper`: either an HTTP response (status plus already-decoded body —
transparent gzip decoding happens before the status check and is dealt
with by the out-of-scope transport layer) or a transport error.
`isURLError` records whether the Go error is a `*url.Error` (the kind
`filterError` redacts). -/
inductive Upstream : Type where
  | resp (statusCode : Nat) (body : List Char)
  | transportErr (isURLError : Bool) (errURL : String) (msg : String)
  deriving DecidableEq

/-- One fetch `Result`: URL, body bytes and status code (duration and
the raw response are wall-clock/transport artifacts outside the
embedding). -/
structure MuxResult : Type where
  url : String
  body : List Char
  statusCode : Nat
  deriving DecidableEq

/-- The per-fetch error.  `resultError` is modelled from the spec: the
three-argument `newResultError(requestable.TemplateURL(), r, result)`
called by `fetchUrl` is absent from src (only its callers and tests
are); per the spec it is the descriptive failure for a non-2xx status,
identifying the failing URL template-redacted to avoid leaking secrets,
together with the status code.  `transport` is a transport-layer error
with its URL field. -/
inductive FetchErr : Type where
  | resultError (templateURL : String) (statusCode : Nat)
  | transport (isURLError : Bool) (errURL : String) (msg : String)
  deriving DecidableEq

/-- `Request.fetchUrl` (modulo the out-of-scope transport and gzip
plumbing): transport errors propagate; otherwise build the `Result` and,
when `Non2xxErrors` is set and the status is outside 200..299, fail with
the result error carrying the template URL and status. -/
def fetchUrl (non2xxErrors : Bool) (req : GoRequestable) (up : Upstream) :
    Except FetchErr MuxResult :=
  match up with
  | .transportErr isURL u m => .error (.transport isURL u m)
  | .resp status body =>
    if non2xxErrors && (decide (status < 200) || decide (status > 299)) then
      .error (.resultError req.templateURL status)
    else .ok (MuxResult.mk req.url body status)

/-- `Request.filterError(errURL, err)`: when the error is a
`*url.Error`, rebuild it with its URL redacted through the template URL
(`SecretFilter.FilterURLError`; the query-parameter filtering itself is
the out-of-scope secretfilter collaborator and is abstracted to the
template URL it targets); other errors pass through unchanged. -/
def filterError (errURL : String) : FetchErr → FetchErr
  | .transport true _ m => .transport true errURL m
  | e => e

/-- Why the shared context's `Done` channel fired: external cancellation
(`context.Canceled`) or the deadline (`context.DeadlineExceeded`). -/
inductive CtxCause : Type where
  | canceled
  | deadlineExceeded
  deriving DecidableEq

/-- `Request.Do`'s error: a fetch failure from the error channel, the
`TimeoutError` wrapper, or the `ErrRequestCanceled` wrapper (the latter
two wrap the context's own error). -/
inductive MuxError : Type where
  | fetch (e : FetchErr)
  | timeout (inner : CtxCause)
  | requestCanceled (inner : CtxCause)
  deriving DecidableEq

/-- The `Unwrap` methods of `TimeoutError` and `ErrRequestCanceled`:
expose the wrapped context error. -/
def muxUnwrap : MuxError → Option CtxCause
  | .timeout inner => some inner
  | .requestCanceled inner => some inner
  | .fetch _ => none

/-- The multiplexer `Request`: the submitted requestables and the
`Non2xxErrors` mode (headers, HMAC and tracing are out-of-scope
collaborators). -/
structure Request : Type where
  requestables : List GoRequestable
  non2xxErrors : Bool
  deriving DecidableEq

/-- What `Request.Do` returns: the result slice (`[]*Result`, so each
slot is optional — a failed fetch leaves its slot nil), the error, and
whether the error branch explicitly canceled the shared context to
abort the in-flight fetches. -/
structure MuxOutput : Type where
  results : List (Option MuxResult)
  error : Option MuxError
  canceledEarly : Bool
  deriving DecidableEq

/-- The slot goroutine `i` writes into the pre-sized result slice:
`results[i] = result` — the successful result, or nil when its fetch
errored. -/
def resultSlot (r : Request) (up : Nat → Upstream) (i : Nat) : Option MuxResult :=
  match r.requestables.get? i with
  | none => none
  | some req =>
    match fetchUrl r.non2xxErrors req (up i) with
    | .ok res => some res
    | .error _ => none

/-- The first (filtered) fetch error to reach the error channel, given
the order in which the goroutines complete: each failing goroutine sends
`r.filterError(requestable.TemplateURL(), err)`. -/
def firstFetchError (r : Request) (up : Nat → Upstream) (completionOrder : List Nat) :
    Option FetchErr :=
  (completionOrder.filterMap (fun i =>
    match r.requestables.get? i with
    | none => none
    | some req =>
      match fetchUrl r.non2xxErrors req (up i) with
      | .ok _ => none
      | .error e => some (filterError req.templateURL e))).head?

/-- `Request.Do`: launch one goroutine per requestable (each writes its
own slot of the pre-sized result slice), then `select` between the error
channel, completion of the wait group, and the shared context's `Done`.
The scheduler-dependent inputs are explicit: `up` gives each fetch's
transport outcome, `completionOrder` the order in which the goroutines
finish, and `ctxFirst` whether (and why) the shared context fires before
either other branch.  On a fetch error the code calls `cancel()` and
returns an empty slice with the error; on `ctx.Done()` it distinguishes
`context.Canceled` (wrapped in `ErrRequestCanceled`) from
`context.DeadlineExceeded` (wrapped in `TimeoutError`), again with an
empty slice. -/
def Request.Do (r : Request) (up : Nat → Upstream) (completionOrder : List Nat)
    (ctxFirst : Option CtxCause) : MuxOutput :=
  match ctxFirst with
  | some .canceled => MuxOutput.mk [] (some (.requestCanceled .canceled)) false
  | some .deadlineExceeded => MuxOutput.mk [] (some (.timeout .deadlineExceeded)) false
  | none =>
    match firstFetchError r up completionOrder with
    | some e => MuxOutput.mk [] (some (.fetch e)) true
    | none =>
      MuxOutput.mk ((List.range r.requestables.length).map (resultSlot r up)) none false

/-! ## Concrete instances used by the claims -/

/-- The spec's stitch example: root body with the paired-form marker for
`body`. -/
def exRootBody : List Char :=
  ("<html><viewproxy-fragment id=\"body\"></viewproxy-fragment></html>").data

/-- The spec's stitch example: the `body` child's own body, the
paired-form marker for `inner`. -/
def exBodyBody : List Char :=
  ("<viewproxy-fragment id=\"inner\"></viewproxy-fragment>").data

/-- The spec's stitch example: result map for root, child `body` and
grandchild `inner`. -/
def exResults : String → List Char := fun k =>
  if k = "root" then exRootBody
  else if k = "root.body" then exBodyBody
  else if k = "root.body.inner" then ("X").data
  else []

/-- The spec's stitch example: structure of root → `body` → `inner`. -/
def exStructure : StitchStructure :=
  .mk ("root") ("")
    (.cons (.mk ("root.body") ("body")
      (.cons (.mk ("root.body.inner") ("inner") .nil) .nil)) .nil)

/-- A leaf fragment definition with the given path. -/
def leafDef (p : String) : Definition := .mk p false .nil

/-- Route `/hello/:name` whose root fragment is `/root/:name` with a
child fragment `/other/:name`: consistent dynamic parts. -/
def routeNameMatch : Route :=
  Route.mk ("/hello/:name")
    (.mk ("/root/:name") false (.cons ("other") (leafDef ("/other/:name")) .nil))

/-- The same route with the child defined as `/other/:login`:
mismatched dynamic parts. -/
def routeNameMismatch : Route :=
  Route.mk ("/hello/:name")
    (.mk ("/root/:name") false (.cons ("other") (leafDef ("/other/:login")) .nil))

/-- The mismatching child marked `WithoutValidation()`. -/
def routeNameIgnored : Route :=
  Route.mk ("/hello/:name")
    (.mk ("/root/:name") false (.cons ("other") (.mk ("/other/:login") true .nil) .nil))

/-- A route with a repeated dynamic segment: `/h/:a/:a` with root
`/r/:a/:a` and child `/o/:a`.  Every node's dynamic-segment-name SET
equals the route's (`{:a}` everywhere), but the multisets differ. -/
def routeDupDynamic : Route :=
  Route.mk ("/h/:a/:a")
    (.mk ("/r/:a/:a") false (.cons ("o") (leafDef ("/o/:a")) .nil))

/-- An example tree for the ordering claims: root `/l` with children
`b → /b` and `a → /a`, where `a` has child `c → /c`. -/
def exOrderRoute : Route :=
  Route.mk ("/x")
    (.mk ("/l") false
      (.cons ("b") (leafDef ("/b"))
        (.cons ("a") (.mk ("/a") false (.cons ("c") (leafDef ("/c")) .nil)) .nil)))

/-- A base URL for the requestable examples. -/
def exBase : GoURL := GoURL.mk ("http") ("localhost") [] [] ("")

/-- The fragment definition `/hello/:name` of the escaped-slash
example. -/
def exHelloDef : Definition := .mk ("/hello/:name") false .nil

/-- Result map for the order-dependence counterexample: the root body
carries the markers of both children in sequence, and child `a`'s
content is itself exactly child `b`'s marker. -/
def cxOrderResults : String → List Char := fun k =>
  if k = "root" then directive ("a") ++ directive ("b")
  else if k = "root.a" then directive ("b")
  else if k = "root.b" then ("X").data
  else []

/-- Sibling structures `a`, `b` in one childContent iteration order. -/
def cxOrderAB : StitchStructure :=
  .mk ("root") ("")
    (.cons (.mk ("root.a") ("a") .nil) (.cons (.mk ("root.b") ("b") .nil) .nil))

/-- The same siblings in the other iteration order. -/
def cxOrderBA : StitchStructure :=
  .mk ("root") ("")
    (.cons (.mk ("root.b") ("b") .nil) (.cons (.mk ("root.a") ("a") .nil) .nil))

/-- A two-requestable multiplexer request for the witnesses. -/
def exMuxRequest : Request :=
  Request.mk [GoRequestable.mk ("http://t/u1") ("http://t/:one"),
              GoRequestable.mk ("http://t/u2") ("http://t/:two")] true

/-- Upstream behaviour where both fetches succeed. -/
def exUpOk : Nat → Upstream := fun i =>
  if i = 0 then .resp 200 (("<body>").data) else .resp 201 (("</body>").data)

/-- Upstream behaviour where fetch 0 returns a 500 and fetch 1
succeeds. -/
def exUpFail : Nat → Upstream := fun i =>
  if i = 0 then .resp 500 (("oops").data) else .resp 200 (("ok").data)

/-- A concrete result list for the ordering witnesses. -/
def exMuxResults : List (Option MuxResult) :=
  [some (MuxResult.mk ("r0") [] 200), some (MuxResult.mk ("r1") [] 200),
   some (MuxResult.mk ("r2") [] 200), some (MuxResult.mk ("r3") [] 200)]

/-! ## Lemmas about first-occurrence replacement -/

/-- A marker that does not occur leaves the body unchanged. -/
theorem bytesReplaceOne_of_index_none (s pat rep : List Char)
    (h : bytesIndex pat s = none) : bytesReplaceOne s pat rep = s := by
  simp [bytesReplaceOne, h]

/-- When the first occurrence of `pat` is the displayed one,
`bytesReplaceOne` substitutes exactly it, leaving the suffix `r` (which
may contain further occurrences) untouched. -/
theorem bytesReplaceOne_split (p pat r rep : List Char)
    (h : bytesIndex pat (p ++ pat ++ r) = some p.length) :
    bytesReplaceOne (p ++ pat ++ r) pat rep = p ++ rep ++ r := by
  have ht : (p ++ (pat ++ r)).take p.length = p := List.take_left p (pat ++ r)
  have hd : (p ++ (pat ++ r)).drop (p.length + pat.length) = r := by
    rw [← List.length_append]
    simp [List.append_assoc]
  simp only [List.append_assoc] at h ⊢
  simp only [bytesReplaceOne, h, List.append_assoc]
  rw [ht, hd]

/-- Substituting a family of markers none of which occur in the body is
the identity. -/
theorem foldl_replaceOne_id (cc : List (String × List Char)) (self : List Char)
    (h : ∀ kc ∈ cc, bytesIndex (directive kc.1) self = none) :
    cc.foldl (fun acc kc => bytesReplaceOne acc (directive kc.1) kc.2) self = self := by
  induction cc with
  | nil => rfl
  | cons kc t ih =>
    have h0 : bytesIndex (directive kc.1) self = none := h kc (by simp)
    simp only [List.foldl_cons, bytesReplaceOne_of_index_none _ _ _ h0]
    exact ih (fun x hx => h x (by simp [hx]))

/-- Every childContent key is the replacement id of a dependent
structure. -/
theorem childContents_rid : ∀ (deps : StitchList) (results : String → List Char)
    (kc : String × List Char), kc ∈ childContents deps results →
    ∃ s ∈ deps.toList, kc.1 = s.rid
  | .nil, _, kc => by simp [childContents]
  | .cons s rest, results, kc => by
    intro h
    simp only [childContents, List.mem_cons] at h
    rcases h with h | h
    · exact ⟨s, by simp [StitchList.toList], by rw [h]⟩
    · rcases childContents_rid rest results kc h with ⟨t, ht, he⟩
      exact ⟨t, by simp [StitchList.toList, ht], he⟩

/-- C3: the spec's stitch example fails on the code.  The code's marker
is the self-closing `<viewproxy-fragment id="body"/>`; the paired-form
marker `<viewproxy-fragment id="body"></viewproxy-fragment>` in the
example's root body is never found, so stitching returns the root body
unchanged instead of the specified `<html>X</html>`. -/
theorem claim_C3_stitch_marker_mismatch :
    directive ("body") = ("<viewproxy-fragment id=\"body\"/>").data ∧
    bytesIndex (directive ("body")) exRootBody = none ∧
    stitch exStructure exResults = exRootBody ∧
    exRootBody ≠ ("<html>X</html>").data := by
  decide

/-- C9: stitching is total and degrades silently: a node with no
children returns its own result body unmodified; a substitution replaces
only the first literal occurrence of the marker, leaving the suffix
(with any further occurrences) untouched; and when none of a node's
child markers occur in its body, the body is returned unchanged with the
children's content silently omitted. -/
theorem claim_C9_stitch_silent_degradation :
    (∀ (key rid : String) (results : String → List Char),
        stitch (.mk key rid .nil) results = results key) ∧
    (∀ (p pat r rep : List Char), bytesIndex pat (p ++ pat ++ r) = some p.length →
        bytesReplaceOne (p ++ pat ++ r) pat rep = p ++ rep ++ r) ∧
    (∀ (key rid : String) (deps : StitchList) (results : String → List Char),
        (∀ s ∈ deps.toList, bytesIndex (directive s.rid) (results key) = none) →
        stitch (.mk key rid deps) results = results key) := by
  refine ⟨fun key rid results => by simp [stitch, childContents],
          fun p pat r rep h => bytesReplaceOne_split p pat r rep h,
          fun key rid deps results h => ?_⟩
  simp only [stitch]
  split
  · rfl
  · apply foldl_replaceOne_id
    intro kc hkc
    rcases childContents_rid deps results kc hkc with ⟨s, hs, he⟩
    rw [he]
    exact h s hs

/-- Witness for C9 at concrete inputs: a two-occurrence body has only
its first marker occurrence replaced, and a parent whose body lacks the
child's marker is returned unchanged. -/
theorem claim_C9_witness :
    bytesReplaceOne (("ab").data ++ ("cd").data ++ ("cdef").data) (("cd").data) (("X").data)
      = ("ab").data ++ ("X").data ++ ("cdef").data ∧
    stitch (.mk ("k") ("") (.cons (.mk ("k.a") ("a") .nil) .nil))
        (fun q => if q = "k" then ("nomarker").data else ("Y").data)
      = ("nomarker").data :=
  ⟨claim_C9_stitch_silent_degradation.2.1 _ _ _ _ (by decide),
   claim_C9_stitch_silent_degradation.2.2 ("k") ("") _ _ (by decide)⟩

/-- C10 counterexample: two iteration orders of the same sibling set
give different stitched bytes when one child's stitched content contains
the sibling's marker. -/
theorem claim_C10_counterexample :
    cxOrderAB.deps.toList.Perm cxOrderBA.deps.toList ∧
    stitch cxOrderAB cxOrderResults ≠ stitch cxOrderBA cxOrderResults := by
  decide

/-- C10 (amended): sibling substitutions commute provided the two
markers occur in the parent body in sequence at their first occurrences
and neither substituted content contains or creates an occurrence of the
sibling's marker before its own (the `bytesIndex` side conditions). -/
theorem claim_C10_sibling_commute
    (results : String → List Char) (kA kB nA nB : String)
    (p0 p1 p2 cA cB : List Char)
    (hroot : results ("root") = p0 ++ directive nA ++ p1 ++ directive nB ++ p2)
    (hA : results kA = cA) (hB : results kB = cB)
    (h1 : bytesIndex (directive nA) (p0 ++ directive nA ++ p1 ++ directive nB ++ p2)
            = some p0.length)
    (h2 : bytesIndex (directive nB) (p0 ++ cA ++ p1 ++ directive nB ++ p2)
            = some (p0 ++ cA ++ p1).length)
    (h3 : bytesIndex (directive nB) (p0 ++ directive nA ++ p1 ++ directive nB ++ p2)
            = some (p0 ++ directive nA ++ p1).length)
    (h4 : bytesIndex (directive nA) (p0 ++ directive nA ++ p1 ++ cB ++ p2)
            = some p0.length) :
    stitch (.mk ("root") ("") (.cons (.mk kA nA .nil) (.cons (.mk kB nB .nil) .nil))) results
      = stitch (.mk ("root") ("") (.cons (.mk kB nB .nil) (.cons (.mk kA nA .nil) .nil))) results
    ∧ stitch (.mk ("root") ("") (.cons (.mk kA nA .nil) (.cons (.mk kB nB .nil) .nil))) results
      = p0 ++ cA ++ p1 ++ cB ++ p2 := by
  have stepAB :
      bytesReplaceOne (bytesReplaceOne (results ("root")) (directive nA) cA) (directive nB) cB
        = p0 ++ cA ++ p1 ++ cB ++ p2 := by
    rw [hroot]
    rw [show (p0 ++ directive nA ++ p1 ++ directive nB ++ p2 : List Char)
          = p0 ++ directive nA ++ (p1 ++ (directive nB ++ p2)) by simp [List.append_assoc]]
    rw [bytesReplaceOne_split p0 (directive nA) (p1 ++ (directive nB ++ p2)) cA
          (by simpa [List.append_assoc] using h1)]
    rw [show (p0 ++ cA ++ (p1 ++ (directive nB ++ p2)) : List Char)
          = p0 ++ cA ++ p1 ++ directive nB ++ p2 by simp [List.append_assoc]]
    rw [show (p0 ++ cA ++ p1 ++ directive nB ++ p2 : List Char)
          = (p0 ++ cA ++ p1) ++ directive nB ++ p2 by simp [List.append_assoc]]
    rw [bytesReplaceOne_split (p0 ++ cA ++ p1) (directive nB) p2 cB
          (by simpa [List.append_assoc] using h2)]
  have stepBA :
      bytesReplaceOne (bytesReplaceOne (results ("root")) (directive nB) cB) (directive nA) cA
        = p0 ++ cA ++ p1 ++ cB ++ p2 := by
    rw [hroot]
    rw [show (p0 ++ directive nA ++ p1 ++ directive nB ++ p2 : List Char)
          = (p0 ++ directive nA ++ p1) ++ directive nB ++ p2 by simp [List.append_assoc]]
    rw [bytesReplaceOne_split (p0 ++ directive nA ++ p1) (directive nB) p2 cB
          (by simpa [List.append_assoc] using h3)]
    rw [show ((p0 ++ directive nA ++ p1) ++ cB ++ p2 : List Char)
          = p0 ++ directive nA ++ (p1 ++ (cB ++ p2)) by simp [List.append_assoc]]
    rw [bytesReplaceOne_split p0 (directive nA) (p1 ++ (cB ++ p2)) cA
          (by simpa [List.append_assoc] using h4)]
    simp [List.append_assoc]
  have outAB :
      stitch (.mk ("root") ("") (.cons (.mk kA nA .nil) (.cons (.mk kB nB .nil) .nil))) results
        = bytesReplaceOne (bytesReplaceOne (results ("root")) (directive nA) cA)
            (directive nB) cB := by
    simp [stitch, childContents, StitchStructure.rid, hA, hB]
  have outBA :
      stitch (.mk ("root") ("") (.cons (.mk kB nB .nil) (.cons (.mk kA nA .nil) .nil))) results
        = bytesReplaceOne (bytesReplaceOne (results ("root")) (directive nB) cB)
            (directive nA) cA := by
    simp [stitch, childContents, StitchStructure.rid, hA, hB]
  exact ⟨by rw [outAB, outBA, stepAB, stepBA], by rw [outAB, stepAB]⟩

/-- Witness for the amended C10 at concrete inputs: two sibling markers
with non-interfering contents commute. -/
theorem claim_C10_witness :
    stitch (.mk ("root") ("")
        (.cons (.mk ("root.a") ("a") .nil) (.cons (.mk ("root.b") ("b") .nil) .nil)))
      (fun k => if k = "root" then ("<p>").data ++ directive ("a") ++ ("<q>").data ++ directive ("b") ++ ("</p>").data
                else if k = "root.a" then ("Y").data
                else if k = "root.b" then ("X").data
                else [])
      = stitch (.mk ("root") ("")
          (.cons (.mk ("root.b") ("b") .nil) (.cons (.mk ("root.a") ("a") .nil) .nil)))
        (fun k => if k = "root" then ("<p>").data ++ directive ("a") ++ ("<q>").data ++ directive ("b") ++ ("</p>").data
                  else if k = "root.a" then ("Y").data
                  else if k = "root.b" then ("X").data
                  else []) :=
  (claim_C10_sibling_commute _ ("root.a") ("root.b") ("a") ("b")
    (("<p>").data) (("<q>").data) (("</p>").data) (("Y").data) (("X").data)
    (by decide) (by decide) (by decide)
    (by decide) (by decide) (by decide) (by decide)).1

/-! ## Lemmas about the sorted fragment order -/

/-- `lexLe` is total. -/
theorem lexLe_total : ∀ (a b : List Char), lexLe a b = true ∨ lexLe b a = true
  | [], _ => Or.inl rfl
  | _ :: _, [] => Or.inr rfl
  | a :: as, b :: bs => by
    rcases Nat.lt_trichotomy a.toNat b.toNat with h | h | h
    · left; simp [lexLe, h]
    · rcases lexLe_total as bs with ih | ih
      · left; simp [lexLe, h, ih]
      · right; simp [lexLe, h.symm, ih]
    · right; simp [lexLe, h]

/-- `lexLe` is transitive. -/
theorem lexLe_trans : ∀ (a b c : List Char),
    lexLe a b = true → lexLe b c = true → lexLe a c = true
  | [], _, _ => fun _ _ => rfl
  | _ :: _, [], _ => by intro h _; exact absurd h (by simp [lexLe])
  | _ :: _, _ :: _, [] => by intro _ h; exact absurd h (by simp [lexLe])
  | a :: as, b :: bs, c :: cs => by
    intro hab hbc
    simp only [lexLe] at hab hbc ⊢
    split_ifs at hab hbc ⊢ <;> try rfl
    all_goals try omega
    all_goals try exact lexLe_trans as bs cs hab hbc

instance : IsTotal String (fun a b => strLe a b = true) :=
  ⟨fun a b => lexLe_total a.data b.data⟩

instance : IsTrans String (fun a b => strLe a b = true) :=
  ⟨fun a b c => lexLe_trans a.data b.data c.data⟩

/-- The memoized fragment order is sorted lexicographically. -/
theorem fragmentOrder_sorted (r : Route) :
    List.Sorted (fun a b => strLe a b = true) r.fragmentOrder :=
  List.sorted_insertionSort _ _

/-- The memoized fragment order is a permutation of the key set of the
fragment mapping. -/
theorem fragmentOrder_perm (r : Route) :
    r.fragmentOrder.Perm (goMapKeys (fragmentMapping r.rootFragment)) :=
  List.perm_insertionSort _ _

/-- The fragment order has no duplicate keys. -/
theorem fragmentOrder_nodup (r : Route) : r.fragmentOrder.Nodup :=
  (fragmentOrder_perm r).symm.nodup (List.nodup_dedup _)

/-- Evaluating the Go-map-building fold: the last write for a key wins,
falling back to the initial map. -/
theorem foldl_update_apply {α : Type} (ps : List (String × α)) :
    ∀ (m0 : String → Option α) (q : String),
    (ps.foldl (fun m kv => fun x => if x = kv.1 then some kv.2 else m x) m0) q
      = match ps.reverse.find? (fun kv => decide (q = kv.1)) with
        | some kv => some kv.2
        | none => m0 q := by
  induction ps with
  | nil => intro m0 q; rfl
  | cons p t ih =>
    intro m0 q
    simp only [List.foldl_cons, List.reverse_cons, List.find?_append]
    rw [ih]
    cases hf : t.reverse.find? (fun kv => decide (q = kv.1)) with
    | some kv => simp
    | none =>
      by_cases hq : q = p.1
      · simp [List.find?, hq]
      · simp [List.find?, hq]

/-- With distinct keys and equal lengths, the reversed zip's lookup of
the i-th key yields the i-th value. -/
theorem findRev_zip_positional {α : Type} : ∀ (order : List String) (results : List α),
    order.Nodup → ∀ (i : Nat) (k : String),
    order.get? i = some k → results.length = order.length →
    (((order.zip results).reverse.find? (fun kv => decide (k = kv.1))).map (fun kv => kv.2))
      = results.get? i := by
  intro order
  induction order with
  | nil => intro results _ i k hk _; simp at hk
  | cons k0 ot ih =>
    intro results hnd i k hk hlen
    cases results with
    | nil => simp at hlen
    | cons r0 rt =>
      have hne : k0 ∉ ot := (List.nodup_cons.mp hnd).1
      simp only [List.zip_cons_cons, List.reverse_cons, List.find?_append]
      cases i with
      | zero =>
        have hkk : k = k0 := by simpa using hk.symm
        have hnone : (ot.zip rt).reverse.find? (fun kv => decide (k = kv.1)) = none := by
          apply List.find?_eq_none.mpr
          intro kv hkv
          have hmem := List.mem_reverse.mp hkv
          obtain ⟨a, b⟩ := kv
          have hin := (List.of_mem_zip hmem).1
          simp only [decide_eq_true_eq]
          intro hcontra
          apply hne
          rw [← hkk, hcontra]
          exact hin
        rw [hnone]
        simp only [Option.none_or]
        rw [hkk]
        simp [List.find?]
      | succ i =>
        have hk' : ot.get? i = some k := by simpa using hk
        have hkmem : k ∈ ot := List.get?_mem hk'
        have hkk : ¬(k = k0) := fun hcontra => hne (hcontra ▸ hkmem)
        have hone : List.find? (fun kv => decide (k = kv.1)) [(k0, r0)] = none := by
          simp [List.find?, hkk]
        rw [hone]
        have hlen' : rt.length = ot.length := by simpa using hlen
        have := ih rt (List.nodup_cons.mp hnd).2 i k hk' hlen'
        simpa using this

/-- The per-key result map sends the i-th fragment key to the i-th
result. -/
theorem mapResults_positional (r : Route) (results : List (Option MuxResult))
    (i : Nat) (k : String) (hk : r.fragmentOrder.get? i = some k)
    (hlen : results.length = r.fragmentOrder.length) :
    mapResultsToFragmentKey r results k = results.get? i := by
  rw [mapResultsToFragmentKey, foldl_update_apply]
  have := findRev_zip_positional r.fragmentOrder results (fragmentOrder_nodup r) i k hk hlen
  cases hf : (r.fragmentOrder.zip results).reverse.find? (fun kv => decide (k = kv.1)) with
  | some kv => rw [hf] at this; simpa using this
  | none => rw [hf] at this; simpa using this

/-- C4: `FragmentsToRequest()` is the flattening of the tree ordered by
the lexicographic sort of the tree-path keys, `FragmentOrder()` is
exactly those sorted keys with `fragmentsToRequest[i]` the node stored
under `fragmentOrder[i]`, and `mapResultsToFragmentKey` zips the order
with the result list positionally. -/
theorem claim_C4_order_contract :
    (∀ r : Route, List.Sorted (fun a b => strLe a b = true) r.fragmentOrder) ∧
    (∀ r : Route, r.fragmentOrder.Perm (goMapKeys (fragmentMapping r.rootFragment))) ∧
    (∀ (r : Route) (i : Nat) (k : String), r.fragmentOrder.get? i = some k →
        r.fragmentsToRequest.get? i
          = some ((goMapGet (fragmentMapping r.rootFragment) k).getD
              (Definition.mk ("") false .nil))) ∧
    (∀ (r : Route) (results : List (Option MuxResult)) (i : Nat) (k : String),
        r.fragmentOrder.get? i = some k → results.length = r.fragmentOrder.length →
        mapResultsToFragmentKey r results k = results.get? i) := by
  refine ⟨fragmentOrder_sorted, fragmentOrder_perm, ?_, mapResults_positional⟩
  intro r i k hk
  rw [List.get?_eq_getElem?] at hk
  rw [Route.fragmentsToRequest, List.get?_eq_getElem?, List.getElem?_map, hk]
  rfl

/-- Witness for C4 on a concrete tree (root `/l`, children `b` and `a`,
grandchild `c` under `a`) and a concrete result list. -/
theorem claim_C4_witness :
    List.Sorted (fun a b => strLe a b = true) exOrderRoute.fragmentOrder ∧
    exOrderRoute.fragmentsToRequest.get? 1
      = some ((goMapGet (fragmentMapping exOrderRoute.rootFragment) ("root.a")).getD
          (Definition.mk ("") false .nil)) ∧
    mapResultsToFragmentKey exOrderRoute exMuxResults ("root.a.c") = exMuxResults.get? 2 :=
  ⟨claim_C4_order_contract.1 exOrderRoute,
   claim_C4_order_contract.2.2.1 exOrderRoute 1 ("root.a") (by decide),
   claim_C4_order_contract.2.2.2 exOrderRoute exMuxResults 2 ("root.a.c") (by decide) (by decide)⟩

/-! ## Validation claims -/

/-- C5 counterexample: on the route `/h/:a/:a` (root `/r/:a/:a`, child
`/o/:a`), every node's dynamic-segment-name SET equals the route's and
nothing is `ignoreValidation`, yet `Validate` fails — the code compares
sorted slices (multisets, duplicate-sensitive), not unordered sets. -/
theorem claim_C5_counterexample :
    (routeDupDynamic.Validate).isSome = true ∧
    ∀ f ∈ routeDupDynamic.fragmentsToRequest,
      f.ignoreValidation = false ∧
      stringSetEq f.dynamicParts routeDupDynamic.dynamicParts = true := by
  decide

/-- C5 (amended): `Route.Validate` fails if and only if some
fragment-tree node not marked `ignoreValidation` has a dynamic-part
slice that differs from the route's as a sorted multiset; the error
names the route path and the offending fragment path; `/hello/:name`
with fragment `/other/:name` validates, with `/other/:login` it fails,
and marking that fragment `WithoutValidation()` validates again. -/
theorem claim_C5_validate_multiset :
    (∀ r : Route, r.Validate = none ↔
        ∀ f ∈ r.fragmentsToRequest, f.ignoreValidation = true ∨
          sortStrings r.dynamicParts = sortStrings f.dynamicParts) ∧
    (∀ (r : Route) (e : RouteValidationError), r.Validate = some e →
        e.routePath = r.path ∧ ∃ f ∈ r.fragmentsToRequest,
          e.fragmentPath = f.path ∧ f.ignoreValidation = false ∧
          sortStrings r.dynamicParts ≠ sortStrings f.dynamicParts) ∧
    routeNameMatch.Validate = none ∧
    routeNameMismatch.Validate
      = some (RouteValidationError.mk ("/hello/:name") ("/other/:login")) ∧
    routeNameIgnored.Validate = none := by
  refine ⟨?_, ?_, by decide, by decide, by decide⟩
  · intro r
    rw [Route.Validate]
    constructor
    · intro h f hf
      cases hx : r.fragmentsToRequest.find?
          (fun f => !f.ignoreValidation && !compareStringSlice r.dynamicParts f.dynamicParts) with
      | some v => rw [hx] at h; simp at h
      | none =>
        have himp : f.ignoreValidation = false →
            sortStrings r.dynamicParts = sortStrings f.dynamicParts := by
          simpa [compareStringSlice, Decidable.not_not] using List.find?_eq_none.mp hx f hf
        by_cases hig : f.ignoreValidation = true
        · exact Or.inl hig
        · exact Or.inr (himp (by simpa using hig))
    · intro h
      cases hx : r.fragmentsToRequest.find?
          (fun f => !f.ignoreValidation && !compareStringSlice r.dynamicParts f.dynamicParts) with
      | none => rfl
      | some v =>
        have hp := List.find?_some hx
        simp only [Bool.and_eq_true, Bool.not_eq_true', compareStringSlice,
          decide_eq_false_iff_not] at hp
        have hm := List.mem_of_find?_eq_some hx
        rcases h v hm with hig | heq
        · rw [hig] at hp; exact absurd hp.1 (by simp)
        · exact absurd heq hp.2
  · intro r e h
    rw [Route.Validate] at h
    cases hx : r.fragmentsToRequest.find?
        (fun f => !f.ignoreValidation && !compareStringSlice r.dynamicParts f.dynamicParts) with
    | none => rw [hx] at h; simp at h
    | some f =>
      rw [hx] at h
      have hef : RouteValidationError.mk r.path f.path = e := by simpa using h
      have hp := List.find?_some hx
      have hm := List.mem_of_find?_eq_some hx
      simp only [Bool.and_eq_true, Bool.not_eq_true', compareStringSlice,
        decide_eq_false_iff_not] at hp
      exact ⟨by rw [← hef], f, hm, by rw [← hef], hp.1, hp.2⟩

/-- Witness for C5: the naming clause applied to the mismatching
route. -/
theorem claim_C5_witness :
    (RouteValidationError.mk ("/hello/:name") ("/other/:login")).routePath
      = routeNameMismatch.path ∧
    ∃ f ∈ routeNameMismatch.fragmentsToRequest,
      (RouteValidationError.mk ("/hello/:name") ("/other/:login")).fragmentPath = f.path ∧
      f.ignoreValidation = false ∧
      sortStrings routeNameMismatch.dynamicParts ≠ sortStrings f.dynamicParts :=
  claim_C5_validate_multiset.2.1 routeNameMismatch
    (RouteValidationError.mk ("/hello/:name") ("/other/:login")) (by decide)

/-! ## Requestable-construction claims -/

/-- `substPath` fails exactly when some dynamic part has no supplied
parameter (Boolean form). -/
theorem substPath_isOk_iff : ∀ (parts : List String) (ps : List (String × String)),
    (substPath parts ps).isOk = false ↔
    (parts.any fun part => goHasColon part && (lookupParam ps part).isNone) = true
  | [], ps => by simp [substPath, Except.isOk, Except.toBool]
  | part :: rest, ps => by
    by_cases hc : goHasColon part = true
    · cases hl : lookupParam ps part with
      | some v =>
        have ih := substPath_isOk_iff rest ps
        cases hr : substPath rest ps with
        | error q => simp [substPath, hc, hl, hr, List.any_cons, Except.isOk, Except.toBool,
            Except.map] at ih ⊢; exact ih
        | ok l => simp [substPath, hc, hl, hr, List.any_cons, Except.isOk, Except.toBool,
            Except.map] at ih ⊢; exact ih
      | none => simp [substPath, hc, hl, List.any_cons, Except.isOk, Except.toBool]
    · have hc' : goHasColon part = false := by simpa using hc
      have ih := substPath_isOk_iff rest ps
      cases hr : substPath rest ps with
      | error q => simp [substPath, hc', hr, List.any_cons, Except.isOk, Except.toBool,
          Except.map] at ih ⊢; exact ih
      | ok l => simp [substPath, hc', hr, List.any_cons, Except.isOk, Except.toBool,
          Except.map] at ih ⊢; exact ih

/-- On success, `substPath` produces exactly the segment-wise
substituted path: a `/` before every part, dynamic parts replaced by
their parameter, literal parts kept. -/
theorem substPath_ok_shape : ∀ (parts : List String) (ps : List (String × String))
    (l : List Char), substPath parts ps = .ok l →
    l = parts.flatMap (fun part =>
      '/' :: (if goHasColon part then ((lookupParam ps part).getD ("")).data
              else part.data))
  | [], ps, l => by intro h; simp [substPath] at h; simp [← h]
  | part :: rest, ps, l => by
    intro h
    by_cases hc : goHasColon part = true
    · cases hl : lookupParam ps part with
      | some v =>
        cases hr : substPath rest ps with
        | error q => simp [substPath, hc, hl, hr, Except.map] at h
        | ok r =>
          have ih := substPath_ok_shape rest ps r hr
          simp [substPath, hc, hl, hr, Except.map] at h
          simp [← h, List.flatMap_cons, hc, hl, ih]
      | none => simp [substPath, hc, hl] at h
    · have hc' : goHasColon part = false := by simpa using hc
      cases hr : substPath rest ps with
      | error q => simp [substPath, hc', hr, Except.map] at h
      | ok r =>
        have ih := substPath_ok_shape rest ps r hr
        simp [substPath, hc', hr, Except.map] at h
        simp [← h, List.flatMap_cons, hc', ih]

/-- C7: `Definition.Requestable` substitutes each dynamic segment with
`pathParams[part]` and passes literal segments through, and it fails
with the missing-parameter error exactly when some dynamic segment has
no entry in `pathParams`. -/
theorem claim_C7_requestable_substitution :
    (∀ (d : Definition) (base : GoURL) (ps : List (String × String)) (q : String),
        (∃ part, d.Requestable base ps q = .error (.missingParameter part d.path)) ↔
        (∃ part ∈ d.routeParts, goHasColon part = true ∧ lookupParam ps part = none)) ∧
    (∀ (d : Definition) (base : GoURL) (ps : List (String × String)) (q : String)
        (fr : FragmentRequest), d.Requestable base ps q = .ok fr →
        fr.requestURL.rawPath = d.routeParts.flatMap (fun part =>
          '/' :: (if goHasColon part then ((lookupParam ps part).getD ("")).data
                  else part.data))) := by
  constructor
  · intro d base ps q
    constructor
    · rintro ⟨part, hp⟩
      cases hs : substPath d.routeParts ps with
      | error p' =>
        have hok : (substPath d.routeParts ps).isOk = false := by
          rw [hs]; rfl
        rcases List.any_eq_true.mp ((substPath_isOk_iff _ _).mp hok) with ⟨pp, hmem, hcond⟩
        simp only [Bool.and_eq_true, Option.isNone_iff_eq_none] at hcond
        exact ⟨pp, hmem, hcond.1, hcond.2⟩
      | ok l =>
        exfalso
        simp only [Definition.Requestable, hs] at hp
        cases hb : buildURL base l q with
        | none => rw [hb] at hp; simp at hp
        | some u =>
          rw [hb] at hp
          cases hb2 : buildURL base (joinParts d.routeParts) ("") with
          | none => rw [hb2] at hp; simp at hp
          | some t => rw [hb2] at hp; simp at hp
    · rintro ⟨part, hmem, hc, hl⟩
      have hany : (d.routeParts.any fun p =>
          goHasColon p && (lookupParam ps p).isNone) = true :=
        List.any_eq_true.mpr ⟨part, hmem, by simp [hc, hl]⟩
      have hok := (substPath_isOk_iff _ _).mpr hany
      cases hs : substPath d.routeParts ps with
      | ok l => rw [hs] at hok; simp [Except.isOk, Except.toBool] at hok
      | error p' =>
        refine ⟨p', ?_⟩
        simp only [Definition.Requestable, hs]
  · intro d base ps q fr h
    cases hs : substPath d.routeParts ps with
    | error p => simp only [Definition.Requestable, hs] at h; cases h
    | ok l =>
      simp only [Definition.Requestable, hs] at h
      cases hb : buildURL base l q with
      | none => rw [hb] at h; cases h
      | some u =>
        rw [hb] at h
        cases hb2 : buildURL base (joinParts d.routeParts) ("") with
        | none => rw [hb2] at h; cases h
        | some t =>
          rw [hb2] at h
          have hft : FragmentRequest.mk u t = fr := by simpa using h
          have hu : u.rawPath = l := by
            rw [buildURL] at hb
            cases hp : pathUnescape l with
            | none => rw [hp] at hb; cases hb
            | some un =>
              rw [hp] at hb
              have : { base with rawQuery := q, path := un, rawPath := l } = u := by
                simpa using hb
              rw [← this]
          rw [← hft]
          exact hu.trans (substPath_ok_shape _ _ _ hs)

/-- Witness for C7: `/hello/:name` with no parameters names `:name` as
missing; with `:name = world` the raw path is the segment-wise
substitution. -/
theorem claim_C7_witness :
    (∃ part ∈ exHelloDef.routeParts, goHasColon part = true ∧ lookupParam [] part = none) ∧
    (FragmentRequest.mk
        (GoURL.mk ("http") ("localhost") (("/hello/world").data) (("/hello/world").data) (""))
        (GoURL.mk ("http") ("localhost") (("hello/:name").data) (("hello/:name").data)
          (""))).requestURL.rawPath
      = exHelloDef.routeParts.flatMap (fun part =>
          '/' :: (if goHasColon part
                  then ((lookupParam [((":name"), ("world"))] part).getD ("")).data
                  else part.data)) :=
  ⟨(claim_C7_requestable_substitution.1 exHelloDef exBase [] ("")).mp
      ⟨(":name"), by decide⟩,
   claim_C7_requestable_substitution.2 exHelloDef exBase [((":name"), ("world"))] ("") _
      (by decide)⟩

/-- C8 counterexample: the round-trip distinctness is not universal
over every parameter value containing an encoded slash.  The value
`a b%2fc` contains `%2f` (at index 3), yet its wire path equals the one
produced by supplying the actual-slash value `a b/c`: the space makes
the raw path an invalid encoding, so `EscapedPath` re-escapes the
decoded path and the `%2f` collapses into `/`. -/
theorem claim_C8_counterexample :
    bytesIndex (("%2f").data) (("a b%2fc").data) = some 3 ∧
    ((exHelloDef.Requestable exBase [((":name"), ("a b%2fc"))] ("")).map
        (fun r => escapedPath r.requestURL)) = .ok (("/hello/a%20b/c").data) ∧
    ((exHelloDef.Requestable exBase [((":name"), ("a b/c"))] ("")).map
        (fun r => escapedPath r.requestURL)) = .ok (("/hello/a%20b/c").data) := by
  decide

/-- C8 (amended): every successfully built Requestable keeps the two
representations — the decoded path is exactly the unescaping of the raw
wire path, so an escaped `%2f` is treated as a slash in the decoded path
while the raw path keeps the literal bytes; whenever that raw path is a
valid encoding (Go `validEncoded`), the wire path is the raw path
verbatim, so a literal `%2f` survives and round-trips distinctly from
the URL produced by supplying an actual `/` — as at the example value
`mulder%2fscully`. -/
theorem claim_C8_escaped_slash_preserved :
    (∀ (d : Definition) (base : GoURL) (ps : List (String × String)) (q : String)
        (fr : FragmentRequest), d.Requestable base ps q = .ok fr →
        pathUnescape fr.requestURL.rawPath = some fr.requestURL.path) ∧
    (∀ u : GoURL, u.rawPath.isEmpty = false → validEncodedPath u.rawPath = true →
        pathUnescape u.rawPath = some u.path → escapedPath u = u.rawPath) ∧
    ((exHelloDef.Requestable exBase [((":name"), ("mulder%2fscully"))] ("")).map
        (fun r => (r.requestURL.path, r.requestURL.rawPath, escapedPath r.requestURL)))
      = .ok ((("/hello/mulder/scully").data, ("/hello/mulder%2fscully").data,
          ("/hello/mulder%2fscully").data)) ∧
    ((exHelloDef.Requestable exBase [((":name"), ("mulder/scully"))] ("")).map
        (fun r => escapedPath r.requestURL)) = .ok (("/hello/mulder/scully").data) ∧
    ("/hello/mulder%2fscully").data ≠ ("/hello/mulder/scully").data := by
  refine ⟨?_, ?_, by decide, by decide, by decide⟩
  · intro d base ps q fr h
    cases hs : substPath d.routeParts ps with
    | error p => simp only [Definition.Requestable, hs] at h; cases h
    | ok l =>
      simp only [Definition.Requestable, hs] at h
      cases hb : buildURL base l q with
      | none => rw [hb] at h; cases h
      | some u =>
        rw [hb] at h
        cases hb2 : buildURL base (joinParts d.routeParts) ("") with
        | none => rw [hb2] at h; cases h
        | some t =>
          rw [hb2] at h
          have hft : FragmentRequest.mk u t = fr := by simpa using h
          rw [← hft]
          rw [buildURL] at hb
          cases hp : pathUnescape l with
          | none => rw [hp] at hb; cases hb
          | some un =>
            rw [hp] at hb
            have hu : { base with rawQuery := q, path := un, rawPath := l } = u := by
              simpa using hb
            rw [← hu]
            exact hp
  · intro u hne hval hdec
    rw [escapedPath, if_pos]
    simp [hne, hval, hdec]

/-- Witness for the amended C8: the two-representation fact and the
valid-raw-path wire preservation, at the example request built from
`mulder%2fscully`. -/
theorem claim_C8_witness :
    pathUnescape (FragmentRequest.mk
        (GoURL.mk ("http") ("localhost") (("/hello/mulder/scully").data)
          (("/hello/mulder%2fscully").data) (""))
        (GoURL.mk ("http") ("localhost") (("hello/:name").data)
          (("hello/:name").data) (""))).requestURL.rawPath
      = some (FragmentRequest.mk
        (GoURL.mk ("http") ("localhost") (("/hello/mulder/scully").data)
          (("/hello/mulder%2fscully").data) (""))
        (GoURL.mk ("http") ("localhost") (("hello/:name").data)
          (("hello/:name").data) (""))).requestURL.path ∧
    escapedPath (GoURL.mk ("http") ("localhost") (("/hello/mulder/scully").data)
        (("/hello/mulder%2fscully").data) (""))
      = (GoURL.mk ("http") ("localhost") (("/hello/mulder/scully").data)
          (("/hello/mulder%2fscully").data) ("")).rawPath :=
  ⟨claim_C8_escaped_slash_preserved.1 exHelloDef exBase
      [((":name"), ("mulder%2fscully"))] ("") _ (by decide),
   claim_C8_escaped_slash_preserved.2.1
      (GoURL.mk ("http") ("localhost") (("/hello/mulder/scully").data)
        (("/hello/mulder%2fscully").data) (""))
      (by decide) (by decide) (by decide)⟩

/-! ## Multiplexer claims -/

/-- C1: when every fetch succeeds, `Do` returns — for every completion
order of the concurrent fetches — a result list of the requestables'
length whose i-th entry is the result of the i-th requestable's own
fetch. -/
theorem claim_C1_order_stable (r : Request) (up : Nat → Upstream)
    (completionOrder : List Nat)
    (h : (List.range r.requestables.length).all
        (fun i => match r.requestables.get? i with
          | some req => (fetchUrl r.non2xxErrors req (up i)).isOk
          | none => true) = true) :
    (r.Do up completionOrder none).error = none ∧
    (r.Do up completionOrder none).canceledEarly = false ∧
    (r.Do up completionOrder none).results.length = r.requestables.length ∧
    (∀ (i : Nat) (req : GoRequestable), r.requestables.get? i = some req →
        ∃ res, fetchUrl r.non2xxErrors req (up i) = .ok res ∧
          (r.Do up completionOrder none).results.get? i = some (some res)) := by
  have hpoint : ∀ (i : Nat) (req : GoRequestable), r.requestables.get? i = some req →
      ∃ res, fetchUrl r.non2xxErrors req (up i) = .ok res := by
    intro i req hq
    have hlt : i < r.requestables.length := by
      rcases Nat.lt_or_ge i r.requestables.length with hlt | hge
      · exact hlt
      · rw [List.get?_eq_none.mpr hge] at hq; cases hq
    have hall := List.all_eq_true.mp h i (List.mem_range.mpr hlt)
    simp only [hq] at hall
    cases hf : fetchUrl r.non2xxErrors req (up i) with
    | ok res => exact ⟨res, rfl⟩
    | error e => rw [hf] at hall; simp [Except.isOk, Except.toBool] at hall
  have hfe : firstFetchError r up completionOrder = none := by
    rw [firstFetchError]
    have hnil : (completionOrder.filterMap (fun i =>
        match r.requestables.get? i with
        | none => none
        | some req =>
          match fetchUrl r.non2xxErrors req (up i) with
          | .ok _ => none
          | .error e => some (filterError req.templateURL e))) = [] := by
      apply List.filterMap_eq_nil_iff.mpr
      intro i _
      cases hq : r.requestables.get? i with
      | none => simp
      | some req =>
        rcases hpoint i req hq with ⟨res, hres⟩
        simp [hres]
    rw [hnil]
    rfl
  refine ⟨by simp [Request.Do, hfe], by simp [Request.Do, hfe],
          by simp [Request.Do, hfe], ?_⟩
  intro i req hq
  rcases hpoint i req hq with ⟨res, hres⟩
  refine ⟨res, hres, ?_⟩
  have hlt : i < r.requestables.length := by
    rcases Nat.lt_or_ge i r.requestables.length with hlt | hge
    · exact hlt
    · rw [List.get?_eq_none.mpr hge] at hq; cases hq
  have hq' : r.requestables[i]? = some req := by
    rw [← List.get?_eq_getElem?]; exact hq
  simp only [Request.Do, hfe]
  rw [List.get?_eq_getElem?, List.getElem?_map, List.getElem?_range hlt]
  simp [resultSlot, hq', hres]

/-- Witness for C1: two successful fetches, completion order reversed
from submission order. -/
theorem claim_C1_witness :
    (exMuxRequest.Do exUpOk [1, 0] none).error = none ∧
    (exMuxRequest.Do exUpOk [1, 0] none).canceledEarly = false ∧
    (exMuxRequest.Do exUpOk [1, 0] none).results.length
      = exMuxRequest.requestables.length ∧
    (∀ (i : Nat) (req : GoRequestable), exMuxRequest.requestables.get? i = some req →
        ∃ res, fetchUrl exMuxRequest.non2xxErrors req (exUpOk i) = .ok res ∧
          (exMuxRequest.Do exUpOk [1, 0] none).results.get? i = some (some res)) :=
  claim_C1_order_stable exMuxRequest exUpOk [1, 0] (by decide)

/-- C2: with non-2xx-is-error enabled, a status outside 200..299 fails
with the error carrying the template URL and status code; a transport
error also fails; either failure makes `Do` cancel the shared context
and return an empty result list with the first (filtered) error; with
the mode disabled a non-2xx response is an ordinary result, not an
error. -/
theorem claim_C2_fail_fast :
    (∀ (req : GoRequestable) (status : Nat) (body : List Char),
        status < 200 ∨ status > 299 →
        fetchUrl true req (.resp status body)
          = .error (.resultError req.templateURL status)) ∧
    (∀ (req : GoRequestable) (isU : Bool) (u m : String),
        fetchUrl true req (.transportErr isU u m) = .error (.transport isU u m)) ∧
    (∀ (r : Request) (up : Nat → Upstream) (order : List Nat) (e : FetchErr),
        firstFetchError r up order = some e →
        r.Do up order none = MuxOutput.mk [] (some (.fetch e)) true) ∧
    (∀ (req : GoRequestable) (status : Nat) (body : List Char),
        fetchUrl false req (.resp status body)
          = .ok (MuxResult.mk req.url body status)) := by
  refine ⟨?_, fun req isU u m => rfl, ?_, fun req status body => rfl⟩
  · intro req status body h
    have hb : (decide (status < 200) || decide (status > 299)) = true := by
      rcases h with h | h <;> simp [h]
    simp [fetchUrl, hb]
  · intro r up order e h
    simp [Request.Do, h]

/-- Witness for C2: a 404 produces the template-redacted result error; a
failing fetch empties the result list and cancels; a 500 with the mode
disabled is a plain result. -/
theorem claim_C2_witness :
    fetchUrl true (GoRequestable.mk ("http://t/u1") ("http://t/:one")) (.resp 404 [])
      = .error (.resultError ("http://t/:one") 404) ∧
    exMuxRequest.Do exUpFail [1, 0] none
      = MuxOutput.mk [] (some (.fetch (.resultError ("http://t/:one") 500))) true ∧
    fetchUrl false (GoRequestable.mk ("u") ("t")) (.resp 500 [])
      = .ok (MuxResult.mk ("u") [] 500) :=
  ⟨claim_C2_fail_fast.1 (GoRequestable.mk ("http://t/u1") ("http://t/:one")) 404 []
      (by decide),
   claim_C2_fail_fast.2.2.1 exMuxRequest exUpFail [1, 0]
      (.resultError ("http://t/:one") 500) (by decide),
   claim_C2_fail_fast.2.2.2 (GoRequestable.mk ("u") ("t")) 500 []⟩

/-- C6: a deadline firing before completion yields the dedicated
timeout error wrapping the context deadline error; an external
cancellation yields the dedicated cancellation error; the two are
distinguishable and both come with an empty result list. -/
theorem claim_C6_timeout_vs_cancellation :
    (∀ (r : Request) (up : Nat → Upstream) (order : List Nat),
        r.Do up order (some .deadlineExceeded)
          = MuxOutput.mk [] (some (.timeout .deadlineExceeded)) false) ∧
    (∀ (r : Request) (up : Nat → Upstream) (order : List Nat),
        r.Do up order (some .canceled)
          = MuxOutput.mk [] (some (.requestCanceled .canceled)) false) ∧
    muxUnwrap (.timeout .deadlineExceeded) = some .deadlineExceeded ∧
    muxUnwrap (.requestCanceled .canceled) = some .canceled ∧
    (∀ (a b : CtxCause), MuxError.timeout a ≠ MuxError.requestCanceled b) :=
  ⟨fun _ _ _ => rfl, fun _ _ _ => rfl, rfl, rfl, fun _ _ h => by cases h⟩
